import Mathlib

/-!
# Verification of `build/amalgamate.py`

A shallow embedding of the amalgamation engine in `build/amalgamate.py`:
the `_SourceWriter` class (its `_section_comment`, `_comment_line`,
`_write_line` and `write_file` methods) and the `amalgamate_sources`
driver loop.

Modelling conventions:
* A source line is a `String` (the Python code reads files in text mode and
  strips the trailing `"\r\n"` from every line before processing, so lines
  carry no newline characters).  The filesystem is an association list from
  canonical absolute path to the list of such lines.
* `SourcePath` mirrors the Python `SourcePath` value: the canonicalized
  absolute path (`os.path.abspath`) and the root-relative display path
  (`os.path.relpath`).  The `os.path` arithmetic itself is kept abstract:
  the writer receives already-constructed `SourcePath` values, exactly as
  `_SourceWriter` does after its constructor converts the caller's table.
* Every `outfp.write(...)` call in the Python code writes exactly one
  `"\n"`-terminated line.  The output stream is modelled as a list of
  `OutLine` events, newest first; `render` maps each event to the exact
  string the Python code writes, so the byte stream of a run is
  `String.join ((st.out.reverse).map render)`.
* Python raises exceptions for a missing input file; the embedding returns
  `Except`.  The recursion of `write_file` through `_write_line` is made
  total with an explicit fuel parameter; running out of fuel is a distinct
  error value (`WErr.outOfFuel`), so termination of the Python recursion
  corresponds to provable `≠ .error .outOfFuel` facts.
-/

/-- Mirrors the Python `SourcePath` after construction: `abs` is the
canonicalized absolute path, `rel` the path relative to the root
(used only for display). -/
structure SourcePath where
  abs : String
  rel : String
deriving DecidableEq, Repr

/-- First-match association-list lookup, modelling Python `dict` lookup
(`includes_to_paths[include]`, and `include in includes_to_paths`). -/
def alookup {α : Type} : List (String × α) → String → Option α
  | [], _ => none
  | (k, a) :: rest, key => if k = key then some a else alookup rest key

/-- The immutable attributes of `_SourceWriter`: the filesystem (what
`open(src.abs)` yields, as lines with `"\r\n"` stripped), the
`includes_to_paths` table with values already converted to `SourcePath`
(as done in `_SourceWriter.__init__`), and the `line_macros` flag. -/
structure Config where
  fs : List (String × List String)
  includes_to_paths : List (String × SourcePath)
  line_macros : Bool

/-- One `outfp.write(...)` call of the writer, tagged by call site.
`render` recovers the exact bytes written. -/
inductive OutLine where
  /-- `_section_comment(f"Begin file {src.rel}")` at the top of `write_file`. -/
  | beginFile (src : SourcePath)
  /-- `_section_comment(f"End of {src.rel}")` at the bottom of `write_file`. -/
  | endFile (src : SourcePath)
  /-- `_section_comment(f"Include {header.rel} in the middle of {src.rel}")`. -/
  | includeBanner (header src : SourcePath)
  /-- `_section_comment(f"Continuing where we left off in {src.rel}")`. -/
  | continuingBanner (src : SourcePath)
  /-- `outfp.write(f"#line {n} \"{rel}\"\n")` (emitted when `line_macros`). -/
  | lineDirective (n : Nat) (rel : String)
  /-- `_comment_line(line)`: the line wrapped in a block comment. -/
  | commented (line : String)
  /-- `outfp.write(line + "\n")`: the line emitted verbatim. -/
  | verbatim (line : String)
deriving DecidableEq, Repr

/-- `_SourceWriter._section_comment`: builds
`"/************** " + text + " "`, pads with `"*"` up to 80 columns when
`80 - len(line) - len("*/")` is positive, then appends `"*/\n"`. -/
def section_comment_string (text : String) : String :=
  let line := "/************** " ++ text ++ " "
  let remainder : Int := 80 - (line.length : Int) - (("*/" : String).length : Int)
  let line := if 0 < remainder then line ++ String.mk (List.replicate remainder.toNat '*') else line
  line ++ "*/\n"

/-- Python `str.replace(pat, rep)` for a nonempty pattern `p0 :: pr`:
replaces every non-overlapping occurrence, scanning left to right. -/
def pyReplace (p0 : Char) (pr rep : List Char) : List Char → List Char
  | [] => []
  | c :: rest =>
    if (p0 :: pr).isPrefixOf (c :: rest) then
      rep ++ pyReplace p0 pr rep (rest.drop pr.length)
    else
      c :: pyReplace p0 pr rep rest
termination_by s => s.length
decreasing_by
  · simp only [List.length_drop, List.length_cons]
    omega
  · simp

/-- The escaping step of `_comment_line`:
`line.replace("/*", "|*").replace("*/", "*|")`. -/
def escapeChars (l : List Char) : List Char :=
  pyReplace '*' ['/'] ['*', '|'] (pyReplace '/' ['*'] ['|', '*'] l)

/-- `_SourceWriter._comment_line`: writes `f"/* {escaped_line} */\n"`. -/
def comment_line (line : String) : String :=
  "/* " ++ String.mk (escapeChars line.data) ++ " */\n"

/-- Exact bytes written for each output event. -/
def render : OutLine → String
  | .beginFile src => section_comment_string ("Begin file " ++ src.rel)
  | .endFile src => section_comment_string ("End of " ++ src.rel)
  | .includeBanner header src =>
      section_comment_string ("Include " ++ header.rel ++ " in the middle of " ++ src.rel)
  | .continuingBanner src =>
      section_comment_string ("Continuing where we left off in " ++ src.rel)
  | .lineDirective n rel => "#line " ++ toString n ++ " \x22" ++ rel ++ "\x22\n"
  | .commented line => comment_line line
  | .verbatim line => line ++ "\n"

/-- Python's `\s` character class, restricted to ASCII (the inputs are
source files; the embedding does not model the non-ASCII Unicode
whitespace that Python's `re` would additionally accept). -/
def isPySpace (c : Char) : Bool :=
  c = ' ' || c = '\t' || c = '\n' || c = '\r' || c = '\x0b' || c = '\x0c'

/-- `([^d]*)d`: the characters before the first occurrence of the closing
delimiter `delim`, or `none` when the delimiter never occurs (in which
case the regex alternative fails to match). -/
def upToDelim (delim : Char) : List Char → Option (List Char)
  | [] => none
  | c :: rest =>
    if c = delim then some []
    else (upToDelim delim rest).map (fun t => c :: t)

/-- `re.match(r'^\s*#\s*include\s*(<([^>]*)>|"([^"]*)")', line)` together
with the Python expression `match.group(2) or match.group(3)`.

Returns `none` when the regex does not match at all.  On a match it
returns `some v` where `v` is the Python value of
`match.group(2) or match.group(3)`: for an angle-bracket include the
captured text when it is non-empty and Python `None` (here `Option.none`)
when it is empty (`"" or None` is `None`); for a quoted include always the
captured text (`None or s` is `s`, even for the empty string). -/
def matchInclude (line : List Char) : Option (Option String) :=
  match line.dropWhile isPySpace with
  | '#' :: rest =>
    let s := rest.dropWhile isPySpace
    if s.take 7 = "include".data then
      match (s.drop 7).dropWhile isPySpace with
      | '<' :: rest2 =>
        match upToDelim '>' rest2 with
        | some txt => some (if txt.isEmpty then none else some (String.mk txt))
        | none => none
      | '\x22' :: rest2 =>
        match upToDelim '\x22' rest2 with
        | some txt => some (some (String.mk txt))
        | none => none
      | _ => none
    else none
  | _ => none

/-- `f"{v}"` for the Python value `v` of `group(2) or group(3)`:
`None` prints as `"None"`. -/
def pyFStr : Option String → String
  | none => "None"
  | some s => s

/-- `include in self._includes_to_paths` / `self._includes_to_paths[include]`
for the Python value of the include expression (`None` is never a key). -/
def pyLookup (table : List (String × SourcePath)) : Option String → Option SourcePath
  | none => none
  | some inc => alookup table inc

/-- The synthetic seen-set key for an unresolved include:
`include_key = f"$//{include}"`. -/
def sysKey (v : Option String) : String :=
  "$//" ++ pyFStr v

/-- The mutable attributes of `_SourceWriter`: the `_seen_includes` set
(as a list of keys) and the output stream (newest event first). -/
structure WState where
  seen : List String
  out : List OutLine
deriving DecidableEq, Repr

/-- One `outfp.write` call: push the event onto the stream. -/
def emit (o : OutLine) (st : WState) : WState :=
  { st with out := o :: st.out }

/-- Run-aborting conditions: `fileNotFound` models the Python `open`
raising on a missing input; `outOfFuel` is the embedding's explicit
bound on the recursion depth of `write_file`. -/
inductive WErr where
  | outOfFuel
  | fileNotFound (abs : String)
deriving DecidableEq, Repr

/-- The `for line in infp` loop of `write_file`, parameterized by the
line handler (the recursion is tied in `write_file`, structurally on the
fuel, so that runs compute by kernel reduction). -/
def write_lines_go (wline : String → Nat → WState → Except WErr WState) :
    List String → Nat → WState → Except WErr WState
  | [], _, st => .ok st
  | line :: rest, lineno, st =>
    match wline line lineno st with
    | .error e => .error e
    | .ok st => write_lines_go wline rest (lineno + 1) st

/-- `_SourceWriter._write_line`, parameterized by the recursive
`write_file` call used to expand a first-time resolved include. -/
def write_line_go (cfg : Config) (wfile : SourcePath → WState → Except WErr WState)
    (src : SourcePath) (line : String) (lineno : Nat) (st : WState) :
    Except WErr WState :=
  match matchInclude line.data with
  | none =>
    -- Not a `#include` line: emit it verbatim.
    .ok (emit (.verbatim line) st)
  | some v =>
    match pyLookup cfg.includes_to_paths v with
    | some header =>
      if header.abs ∈ st.seen then
        .ok (emit (.commented line) st)
      else
        let st := { st with seen := header.abs :: st.seen }
        let st := emit (.includeBanner header src) st
        match wfile header st with
        | .error e => .error e
        | .ok st =>
          let st := emit (.continuingBanner src) st
          .ok (if cfg.line_macros then emit (.lineDirective (lineno + 1) src.rel) st else st)
    | none =>
      let key := sysKey v
      if key ∈ st.seen then
        .ok (emit (.commented line) st)
      else
        .ok (emit (.verbatim line) { st with seen := key :: st.seen })

/-- `_SourceWriter.write_file`: begin banner, optional `#line 1` directive,
stream the file's lines through `_write_line`, end banner.  The recursion
through `_write_line` (expanding a first-time resolved include) descends
structurally on the fuel. -/
def write_file (cfg : Config) : Nat → SourcePath → WState → Except WErr WState
  | 0, _, _ => .error .outOfFuel
  | fuel + 1, src, st =>
    let st := emit (.beginFile src) st
    let st := if cfg.line_macros then emit (.lineDirective 1 src.rel) st else st
    match alookup cfg.fs src.abs with
    | none => .error (.fileNotFound src.abs)
    | some lines =>
      match write_lines_go (write_line_go cfg (write_file cfg fuel) src) lines 1 st with
      | .error e => .error e
      | .ok st => .ok (emit (.endFile src) st)

/-- `_SourceWriter._write_line` with the recursion instantiated. -/
def write_line (cfg : Config) (fuel : Nat) (src : SourcePath) (line : String)
    (lineno : Nat) (st : WState) : Except WErr WState :=
  write_line_go cfg (write_file cfg fuel) src line lineno st

/-- The line loop of `write_file` with the recursion instantiated. -/
def write_lines (cfg : Config) (fuel : Nat) (src : SourcePath)
    (lines : List String) (lineno : Nat) (st : WState) : Except WErr WState :=
  write_lines_go (write_line_go cfg (write_file cfg fuel) src) lines lineno st

/-- The driver loop of `amalgamate_sources`: `write_file` once per
top-level source, sharing one writer state. -/
def write_files (cfg : Config) (fuel : Nat) : List SourcePath → WState → Except WErr WState
  | [], st => .ok st
  | src :: rest, st =>
    match write_file cfg fuel src st with
    | .error e => .error e
    | .ok st => write_files cfg fuel rest st

/-- `amalgamate_sources`: a fresh writer (empty seen-set, empty output),
then the driver loop. -/
def amalgamate_sources (cfg : Config) (fuel : Nat) (srcs : List SourcePath) :
    Except WErr WState :=
  write_files cfg fuel srcs ⟨[], []⟩

/-! ## Counting expansions, invariants, and recursion measure -/

/-- Does this output event record the full expansion (the
`Include ... in the middle of ...` banner) of the header whose canonical
absolute path is `p`? -/
def isExpandOf (p : String) : OutLine → Bool
  | .includeBanner h _ => h.abs == p
  | _ => false

/-- How many times the header with absolute path `p` has been expanded in
the output stream. -/
def expandCount (p : String) (out : List OutLine) : Nat :=
  out.countP (isExpandOf p)

/-- Does this output event emit, verbatim, a line whose include expression
evaluates to the Python value `v`?  (These are exactly the pass-through
emissions of unresolved system includes.) -/
def isSysEmitOf (v : Option String) : OutLine → Bool
  | .verbatim l => matchInclude l.data == some v
  | _ => false

/-- How many verbatim emissions of include lines with value `v` the output
stream contains. -/
def sysCount (v : Option String) (out : List OutLine) : Nat :=
  out.countP (isSysEmitOf v)

/-- A header is expanded at most once, and only after its absolute path has
entered the seen-set. -/
def InvA (st : WState) : Prop :=
  ∀ p, expandCount p st.out ≤ if p ∈ st.seen then 1 else 0

/-- An unresolved include is passed through verbatim at most once, and only
after its synthetic key has entered the seen-set. -/
def InvB (cfg : Config) (st : WState) : Prop :=
  ∀ v, pyLookup cfg.includes_to_paths v = none →
    sysCount v st.out ≤ if sysKey v ∈ st.seen then 1 else 0

/-- What a successful writer step guarantees: the seen-set only grows, the
output stream is only appended to, and both at-most-once invariants are
preserved. -/
def Preserves (cfg : Config) (st st' : WState) : Prop :=
  (∀ k, k ∈ st.seen → k ∈ st'.seen) ∧
  (∃ ext, st'.out = ext ++ st.out) ∧
  (InvA st → InvA st') ∧
  (InvB cfg st → InvB cfg st')

/-- An output event that counts neither as a header expansion nor as a
system-include pass-through. -/
def NeutralEvent (o : OutLine) : Prop :=
  (∀ p, isExpandOf p o = false) ∧ (∀ v, isSysEmitOf v o = false)

/-- The number of include-table entries whose target has not yet been
expanded.  Each recursive `write_file` call strictly decreases it, which
bounds the recursion depth of the writer. -/
def unseenCnt (cfg : Config) (seen : List String) : Nat :=
  cfg.includes_to_paths.countP (fun kv => !(decide (kv.2.abs ∈ seen)))

/-! ## Concrete fixtures used to exercise the theorems -/

/-- A top-level source file `a.cpp` under root `/proj`. -/
def aSrc : SourcePath := ⟨"/proj/a.cpp", "a.cpp"⟩

/-- A local header `b.h` under root `/proj`. -/
def bHdr : SourcePath := ⟨"/proj/b.h", "b.h"⟩

/-- A local header `c.h` under root `/proj`. -/
def cHdr : SourcePath := ⟨"/proj/c.h", "c.h"⟩

/-- `a.cpp` includes `b.h` twice (under two spellings that resolve to the
same file) and `<stdio.h>` twice; only `b.h` resolves in the table. -/
def cfgBasic : Config :=
  { fs := [("/proj/a.cpp",
            ["#include \x22b.h\x22", "int a;", "#include \x22./b.h\x22",
             "#include <stdio.h>", "int a2;", "#include <stdio.h>"]),
           ("/proj/b.h", ["int b;"])],
    includes_to_paths := [("b.h", bHdr), ("./b.h", bHdr)],
    line_macros := false }

/-- A cyclic include table: `b.h` includes `c.h` and `c.h` includes `b.h`. -/
def cfgCycle : Config :=
  { fs := [("/proj/a.cpp", ["#include \x22b.h\x22"]),
           ("/proj/b.h", ["#include \x22c.h\x22"]),
           ("/proj/c.h", ["#include \x22b.h\x22"])],
    includes_to_paths := [("b.h", bHdr), ("c.h", cHdr)],
    line_macros := false }

/-- A single plain file, used with a duplicated top-level source list. -/
def cfgDup : Config :=
  { fs := [("/proj/a.cpp", ["int x;"])],
    includes_to_paths := [],
    line_macros := false }

/-- The output of the full run of `cfgBasic` over `[aSrc]` (newest event
first): `b.h` expanded once, its second spelling commented, `<stdio.h>`
passed through once then commented. -/
def outBasic : List OutLine :=
  [.endFile aSrc, .commented "#include <stdio.h>", .verbatim "int a2;",
   .verbatim "#include <stdio.h>", .commented "#include \x22./b.h\x22",
   .verbatim "int a;", .continuingBanner aSrc, .endFile bHdr, .verbatim "int b;",
   .beginFile bHdr, .includeBanner bHdr aSrc, .beginFile aSrc]

/-- Same shape as `cfgBasic` but with line-position markers enabled. -/
def cfgMarkers : Config :=
  { fs := [("/proj/a.cpp", ["#include \x22b.h\x22", "int a;"]),
           ("/proj/b.h", ["int b;"])],
    includes_to_paths := [("b.h", bHdr)],
    line_macros := true }

/-! ## Basic equations for the writer -/

/-- The result of the first-expansion branch of `_write_line`: add the
header's absolute path to the seen-set, emit the `Include ...` banner,
recursively write the header file, emit the `Continuing ...` banner and
(when enabled) the re-anchoring `#line` directive.  Note that the original
include line is not an argument: the branch never writes it. -/
def expandResult (cfg : Config) (fuel : Nat) (src header : SourcePath)
    (lineno : Nat) (st : WState) : Except WErr WState :=
  match write_file cfg fuel header
      (emit (.includeBanner header src) { st with seen := header.abs :: st.seen }) with
  | .error e => .error e
  | .ok st₂ =>
    let st₃ := emit (.continuingBanner src) st₂
    .ok (if cfg.line_macros then emit (.lineDirective (lineno + 1) src.rel) st₃ else st₃)

theorem write_file_zero (cfg : Config) (src : SourcePath) (st : WState) :
    write_file cfg 0 src st = .error .outOfFuel := rfl

theorem write_file_succ (cfg : Config) (fuel : Nat) (src : SourcePath) (st : WState) :
    write_file cfg (fuel + 1) src st =
      (match alookup cfg.fs src.abs with
       | none => .error (.fileNotFound src.abs)
       | some lines =>
         match write_lines cfg fuel src lines 1
             (if cfg.line_macros then emit (.lineDirective 1 src.rel) (emit (.beginFile src) st)
              else emit (.beginFile src) st) with
         | .error e => .error e
         | .ok st' => .ok (emit (.endFile src) st')) := rfl

theorem write_lines_nil (cfg : Config) (fuel : Nat) (src : SourcePath)
    (lineno : Nat) (st : WState) :
    write_lines cfg fuel src [] lineno st = .ok st := rfl

theorem write_lines_cons (cfg : Config) (fuel : Nat) (src : SourcePath)
    (line : String) (rest : List String) (lineno : Nat) (st : WState) :
    write_lines cfg fuel src (line :: rest) lineno st =
      (match write_line cfg fuel src line lineno st with
       | .error e => .error e
       | .ok st' => write_lines cfg fuel src rest (lineno + 1) st') := rfl

theorem write_line_nonInclude {line : String} (cfg : Config) (fuel : Nat)
    (src : SourcePath) (lineno : Nat) (st : WState)
    (hm : matchInclude line.data = none) :
    write_line cfg fuel src line lineno st = .ok (emit (.verbatim line) st) := by
  unfold write_line write_line_go
  rw [hm]

theorem write_line_resolved_seen {line : String} {v : Option String}
    {header : SourcePath} (cfg : Config) (fuel : Nat) (src : SourcePath)
    (lineno : Nat) (st : WState)
    (hm : matchInclude line.data = some v)
    (hl : pyLookup cfg.includes_to_paths v = some header)
    (hs : header.abs ∈ st.seen) :
    write_line cfg fuel src line lineno st = .ok (emit (.commented line) st) := by
  unfold write_line write_line_go
  rw [hm]
  simp only [hl, if_pos hs]

theorem write_line_resolved_new {line : String} {v : Option String}
    {header : SourcePath} (cfg : Config) (fuel : Nat) (src : SourcePath)
    (lineno : Nat) (st : WState)
    (hm : matchInclude line.data = some v)
    (hl : pyLookup cfg.includes_to_paths v = some header)
    (hs : header.abs ∉ st.seen) :
    write_line cfg fuel src line lineno st = expandResult cfg fuel src header lineno st := by
  unfold write_line write_line_go
  rw [hm]
  simp only [hl, if_neg hs, expandResult]

theorem write_line_sys_seen {line : String} {v : Option String} (cfg : Config)
    (fuel : Nat) (src : SourcePath) (lineno : Nat) (st : WState)
    (hm : matchInclude line.data = some v)
    (hl : pyLookup cfg.includes_to_paths v = none)
    (hs : sysKey v ∈ st.seen) :
    write_line cfg fuel src line lineno st = .ok (emit (.commented line) st) := by
  unfold write_line write_line_go
  rw [hm]
  simp only [hl, if_pos hs]

theorem write_line_sys_new {line : String} {v : Option String} (cfg : Config)
    (fuel : Nat) (src : SourcePath) (lineno : Nat) (st : WState)
    (hm : matchInclude line.data = some v)
    (hl : pyLookup cfg.includes_to_paths v = none)
    (hs : sysKey v ∉ st.seen) :
    write_line cfg fuel src line lineno st =
      .ok (emit (.verbatim line) { st with seen := sysKey v :: st.seen }) := by
  unfold write_line write_line_go
  rw [hm]
  simp only [hl, if_neg hs]

/-! ## Counting expansions and system-include emissions -/

theorem preserves_refl (cfg : Config) (st : WState) : Preserves cfg st st :=
  ⟨fun _ h => h, ⟨[], rfl⟩, id, id⟩

theorem preserves_trans {cfg : Config} {st₁ st₂ st₃ : WState}
    (h₁ : Preserves cfg st₁ st₂) (h₂ : Preserves cfg st₂ st₃) :
    Preserves cfg st₁ st₃ := by
  obtain ⟨hs₁, ⟨e₁, he₁⟩, ha₁, hb₁⟩ := h₁
  obtain ⟨hs₂, ⟨e₂, he₂⟩, ha₂, hb₂⟩ := h₂
  exact ⟨fun k hk => hs₂ k (hs₁ k hk), ⟨e₂ ++ e₁, by rw [he₂, he₁, List.append_assoc]⟩,
    fun h => ha₂ (ha₁ h), fun h => hb₂ (hb₁ h)⟩

theorem expandCount_cons (p : String) (o : OutLine) (out : List OutLine) :
    expandCount p (o :: out) = expandCount p out + if isExpandOf p o then 1 else 0 :=
  List.countP_cons _ _ _

theorem sysCount_cons (v : Option String) (o : OutLine) (out : List OutLine) :
    sysCount v (o :: out) = sysCount v out + if isSysEmitOf v o then 1 else 0 :=
  List.countP_cons _ _ _

theorem neutral_beginFile (src : SourcePath) : NeutralEvent (.beginFile src) :=
  ⟨fun _ => rfl, fun _ => rfl⟩

theorem neutral_endFile (src : SourcePath) : NeutralEvent (.endFile src) :=
  ⟨fun _ => rfl, fun _ => rfl⟩

theorem neutral_continuingBanner (src : SourcePath) : NeutralEvent (.continuingBanner src) :=
  ⟨fun _ => rfl, fun _ => rfl⟩

theorem neutral_lineDirective (n : Nat) (rel : String) : NeutralEvent (.lineDirective n rel) :=
  ⟨fun _ => rfl, fun _ => rfl⟩

theorem neutral_commented (line : String) : NeutralEvent (.commented line) :=
  ⟨fun _ => rfl, fun _ => rfl⟩

theorem neutral_verbatim_nonInclude {line : String}
    (hm : matchInclude line.data = none) : NeutralEvent (.verbatim line) := by
  refine ⟨fun _ => rfl, fun v => ?_⟩
  simp [isSysEmitOf, hm]

theorem preserves_emit_neutral {o : OutLine} (cfg : Config) (st : WState)
    (h : NeutralEvent o) : Preserves cfg st (emit o st) := by
  obtain ⟨ha, hb⟩ := h
  refine ⟨fun _ h => h, ⟨[o], rfl⟩, fun hA p => ?_, fun hB v hv => ?_⟩
  · show expandCount p (o :: st.out) ≤ _
    rw [expandCount_cons, ha p, if_neg (by simp)]
    exact hA p
  · show sysCount v (o :: st.out) ≤ _
    rw [sysCount_cons, hb v, if_neg (by simp)]
    exact hB v hv

theorem ite_mem_mono {k : String} {s s' : List String} (h : k ∈ s → k ∈ s') :
    (if k ∈ s then 1 else 0) ≤ (if k ∈ s' then 1 else 0) := by
  by_cases hk : k ∈ s
  · rw [if_pos hk, if_pos (h hk)]
  · rw [if_neg hk]
    exact Nat.zero_le _

/-- Entering the first-expansion branch preserves `InvA`: the new banner is
accounted for by the newly added seen-set entry. -/
theorem invA_expand_entry {st : WState} {header src : SourcePath}
    (hs : header.abs ∉ st.seen) (hA : InvA st) :
    InvA ⟨header.abs :: st.seen, .includeBanner header src :: st.out⟩ := by
  intro p
  show expandCount p (OutLine.includeBanner header src :: st.out) ≤
    if p ∈ header.abs :: st.seen then 1 else 0
  rw [expandCount_cons]
  by_cases hp : header.abs = p
  · have h0 : expandCount p st.out = 0 := by
      have := hA p
      rw [if_neg (by rw [← hp]; exact hs)] at this
      omega
    rw [h0, if_pos (by simp [isExpandOf, hp]), if_pos (by rw [hp] at *; exact List.mem_cons_self _ _)]
  · rw [if_neg (by simp [isExpandOf, hp])]
    have : (if p ∈ st.seen then 1 else 0) ≤ (if p ∈ header.abs :: st.seen then 1 else 0) :=
      ite_mem_mono (fun h => List.mem_cons_of_mem _ h)
    have := hA p
    omega

theorem invB_expand_entry {cfg : Config} {st : WState} {header src : SourcePath}
    (hB : InvB cfg st) :
    InvB cfg ⟨header.abs :: st.seen, .includeBanner header src :: st.out⟩ := by
  intro v hv
  show sysCount v (OutLine.includeBanner header src :: st.out) ≤
    if sysKey v ∈ header.abs :: st.seen then 1 else 0
  rw [sysCount_cons, if_neg (by simp [isSysEmitOf])]
  have h1 := hB v hv
  have h2 : (if sysKey v ∈ st.seen then 1 else 0) ≤
      (if sysKey v ∈ header.abs :: st.seen then 1 else 0) :=
    ite_mem_mono (fun h => List.mem_cons_of_mem _ h)
  omega

theorem invA_sys_entry {st : WState} {line : String} {v : Option String} (hA : InvA st) :
    InvA ⟨sysKey v :: st.seen, .verbatim line :: st.out⟩ := by
  intro p
  show expandCount p (OutLine.verbatim line :: st.out) ≤
    if p ∈ sysKey v :: st.seen then 1 else 0
  rw [expandCount_cons, if_neg (by simp [isExpandOf])]
  have h1 := hA p
  have h2 : (if p ∈ st.seen then 1 else 0) ≤ (if p ∈ sysKey v :: st.seen then 1 else 0) :=
    ite_mem_mono (fun h => List.mem_cons_of_mem _ h)
  omega

theorem invB_sys_entry {cfg : Config} {st : WState} {line : String} {v : Option String}
    (hm : matchInclude line.data = some v) (hs : sysKey v ∉ st.seen) (hB : InvB cfg st) :
    InvB cfg ⟨sysKey v :: st.seen, .verbatim line :: st.out⟩ := by
  intro v' hv'
  show sysCount v' (OutLine.verbatim line :: st.out) ≤
    if sysKey v' ∈ sysKey v :: st.seen then 1 else 0
  rw [sysCount_cons]
  by_cases hvv : v = v'
  · subst hvv
    have h0 : sysCount v st.out = 0 := by
      have := hB v hv'
      rw [if_neg hs] at this
      omega
    rw [h0, if_pos (by simp [isSysEmitOf, hm]), if_pos (List.mem_cons_self _ _)]
  · rw [if_neg (by simp [isSysEmitOf, hm, hvv])]
    have h1 := hB v' hv'
    have h2 : (if sysKey v' ∈ st.seen then 1 else 0) ≤
        (if sysKey v' ∈ sysKey v :: st.seen then 1 else 0) :=
      ite_mem_mono (fun h => List.mem_cons_of_mem _ h)
    omega

/-! ## The preservation ladder over the fuel parameter -/

theorem preserves_line_of_file {cfg : Config} {fuel : Nat}
    (hfile : ∀ src st st', write_file cfg fuel src st = .ok st' → Preserves cfg st st') :
    ∀ src line lineno st st',
      write_line cfg fuel src line lineno st = .ok st' → Preserves cfg st st' := by
  intro src line lineno st st' h
  cases hm : matchInclude line.data with
  | none =>
    rw [write_line_nonInclude cfg fuel src lineno st hm] at h
    injection h with h
    subst h
    exact preserves_emit_neutral cfg st (neutral_verbatim_nonInclude hm)
  | some v =>
    cases hl : pyLookup cfg.includes_to_paths v with
    | none =>
      by_cases hs : sysKey v ∈ st.seen
      · rw [write_line_sys_seen cfg fuel src lineno st hm hl hs] at h
        injection h with h
        subst h
        exact preserves_emit_neutral cfg st (neutral_commented line)
      · rw [write_line_sys_new cfg fuel src lineno st hm hl hs] at h
        injection h with h
        subst h
        refine ⟨fun k hk => List.mem_cons_of_mem _ hk, ⟨[.verbatim line], rfl⟩, ?_, ?_⟩
        · exact fun hA => invA_sys_entry hA
        · exact fun hB => invB_sys_entry hm hs hB
    | some header =>
      by_cases hs : header.abs ∈ st.seen
      · rw [write_line_resolved_seen cfg fuel src lineno st hm hl hs] at h
        injection h with h
        subst h
        exact preserves_emit_neutral cfg st (neutral_commented line)
      · rw [write_line_resolved_new cfg fuel src lineno st hm hl hs] at h
        unfold expandResult at h
        cases hw : write_file cfg fuel header
            (emit (.includeBanner header src) { st with seen := header.abs :: st.seen }) with
        | error e =>
          simp only [hw] at h
          exact Except.noConfusion h
        | ok st₂ =>
          simp only [hw] at h
          injection h with h
          subst h
          have h₁ : Preserves cfg st
              (⟨header.abs :: st.seen, .includeBanner header src :: st.out⟩ : WState) :=
            ⟨fun k hk => List.mem_cons_of_mem _ hk, ⟨[.includeBanner header src], rfl⟩,
             fun hA => invA_expand_entry hs hA, fun hB => invB_expand_entry hB⟩
          have h₂ := hfile _ _ _ hw
          have h₃ : Preserves cfg st₂
              (if cfg.line_macros then
                emit (.lineDirective (lineno + 1) src.rel) (emit (.continuingBanner src) st₂)
               else emit (.continuingBanner src) st₂) := by
            by_cases hlm : cfg.line_macros
            · rw [if_pos hlm]
              exact preserves_trans
                (preserves_emit_neutral _ _ (neutral_continuingBanner src))
                (preserves_emit_neutral _ _ (neutral_lineDirective _ _))
            · rw [if_neg hlm]
              exact preserves_emit_neutral _ _ (neutral_continuingBanner src)
          exact preserves_trans (preserves_trans h₁ h₂) h₃

theorem preserves_lines_of_line {cfg : Config} {fuel : Nat}
    (hline : ∀ src line lineno st st',
      write_line cfg fuel src line lineno st = .ok st' → Preserves cfg st st') :
    ∀ src lines lineno st st',
      write_lines cfg fuel src lines lineno st = .ok st' → Preserves cfg st st' := by
  intro src lines
  induction lines with
  | nil =>
    intro lineno st st' h
    rw [write_lines_nil] at h
    injection h with h
    subst h
    exact preserves_refl cfg _
  | cons line rest ih =>
    intro lineno st st' h
    rw [write_lines_cons] at h
    cases hw : write_line cfg fuel src line lineno st with
    | error e =>
      simp only [hw] at h
      exact Except.noConfusion h
    | ok st₂ =>
      simp only [hw] at h
      exact preserves_trans (hline _ _ _ _ _ hw) (ih _ _ _ h)

theorem preserves_file_succ {cfg : Config} {fuel : Nat}
    (hlines : ∀ src lines lineno st st',
      write_lines cfg fuel src lines lineno st = .ok st' → Preserves cfg st st') :
    ∀ src st st', write_file cfg (fuel + 1) src st = .ok st' → Preserves cfg st st' := by
  intro src st st' h
  rw [write_file_succ] at h
  cases ha : alookup cfg.fs src.abs with
  | none =>
    simp only [ha] at h
    exact Except.noConfusion h
  | some lines =>
    simp only [ha] at h
    cases hw : write_lines cfg fuel src lines 1
        (if cfg.line_macros then emit (.lineDirective 1 src.rel) (emit (.beginFile src) st)
         else emit (.beginFile src) st) with
    | error e =>
      simp only [hw] at h
      exact Except.noConfusion h
    | ok st₃ =>
      simp only [hw] at h
      injection h with h
      subst h
      have h₀ : Preserves cfg st
          (if cfg.line_macros then emit (.lineDirective 1 src.rel) (emit (.beginFile src) st)
           else emit (.beginFile src) st) := by
        by_cases hlm : cfg.line_macros
        · rw [if_pos hlm]
          exact preserves_trans
            (preserves_emit_neutral _ _ (neutral_beginFile src))
            (preserves_emit_neutral _ _ (neutral_lineDirective _ _))
        · rw [if_neg hlm]
          exact preserves_emit_neutral _ _ (neutral_beginFile src)
      exact preserves_trans (preserves_trans h₀ (hlines _ _ _ _ _ hw))
        (preserves_emit_neutral _ _ (neutral_endFile src))

/-- A successful `write_file` only grows the seen-set, only appends to the
output, and preserves both at-most-once invariants. -/
theorem write_file_preserves (cfg : Config) (fuel : Nat) :
    ∀ src st st', write_file cfg fuel src st = .ok st' → Preserves cfg st st' := by
  induction fuel with
  | zero =>
    intro src st st' h
    rw [write_file_zero] at h
    exact Except.noConfusion h
  | succ fuel ih =>
    exact preserves_file_succ (preserves_lines_of_line (preserves_line_of_file ih))

theorem write_line_preserves (cfg : Config) (fuel : Nat) :
    ∀ src line lineno st st',
      write_line cfg fuel src line lineno st = .ok st' → Preserves cfg st st' :=
  preserves_line_of_file (write_file_preserves cfg fuel)

theorem write_lines_preserves (cfg : Config) (fuel : Nat) :
    ∀ src lines lineno st st',
      write_lines cfg fuel src lines lineno st = .ok st' → Preserves cfg st st' :=
  preserves_lines_of_line (write_line_preserves cfg fuel)

theorem write_files_preserves (cfg : Config) (fuel : Nat) :
    ∀ srcs st st', write_files cfg fuel srcs st = .ok st' → Preserves cfg st st' := by
  intro srcs
  induction srcs with
  | nil =>
    intro st st' h
    rw [write_files] at h
    injection h with h
    subst h
    exact preserves_refl cfg _
  | cons src rest ih =>
    intro st st' h
    rw [write_files] at h
    cases hw : write_file cfg fuel src st with
    | error e =>
      simp only [hw] at h
      exact Except.noConfusion h
    | ok st₂ =>
      simp only [hw] at h
      exact preserves_trans (write_file_preserves cfg fuel _ _ _ hw) (ih _ _ h)

/-! ## Sufficient fuel: the recursion depth is bounded by the include table -/

theorem alookup_mem {α : Type} : ∀ {l : List (String × α)} {key : String} {a : α},
    alookup l key = some a → (key, a) ∈ l := by
  intro l
  induction l with
  | nil => intro key a h; exact Option.noConfusion h
  | cons kv rest ih =>
    intro key a h
    rw [alookup] at h
    by_cases hk : kv.1 = key
    · rw [if_pos hk] at h
      injection h with h
      have hkv : (key, a) = kv := by
        rw [← hk, ← h]
      rw [hkv]
      exact List.mem_cons_self _ _
    · rw [if_neg hk] at h
      exact List.mem_cons_of_mem _ (ih h)

theorem pyLookup_mem {table : List (String × SourcePath)} {v : Option String}
    {header : SourcePath} (h : pyLookup table v = some header) :
    ∃ inc, v = some inc ∧ (inc, header) ∈ table := by
  cases v with
  | none => exact Option.noConfusion h
  | some inc => exact ⟨inc, rfl, alookup_mem h⟩

theorem unseenCnt_le_length (cfg : Config) (seen : List String) :
    unseenCnt cfg seen ≤ cfg.includes_to_paths.length :=
  List.countP_le_length _

theorem unseenCnt_mono {cfg : Config} {s s' : List String}
    (h : ∀ k, k ∈ s → k ∈ s') : unseenCnt cfg s' ≤ unseenCnt cfg s := by
  unfold unseenCnt
  apply List.countP_mono_left
  intro kv _ hkv
  simp only [Bool.not_eq_true', decide_eq_false_iff_not] at hkv ⊢
  exact fun hmem => hkv (h _ hmem)

theorem unseenCnt_lt {cfg : Config} {inc : String} {header : SourcePath}
    {seen : List String} (hmem : (inc, header) ∈ cfg.includes_to_paths)
    (hs : header.abs ∉ seen) :
    unseenCnt cfg (header.abs :: seen) < unseenCnt cfg seen := by
  unfold unseenCnt
  generalize hl : cfg.includes_to_paths = l at hmem
  clear hl
  induction l with
  | nil => exact absurd hmem (List.not_mem_nil _)
  | cons kv rest ih =>
    rw [List.countP_cons, List.countP_cons]
    rcases List.mem_cons.mp hmem with heq | hrest
    · subst heq
      have hold : (!(decide (header.abs ∈ seen))) = true := by
        simp [hs]
      have hnew : (!(decide (header.abs ∈ header.abs :: seen))) = false := by
        simp
      have hle : List.countP (fun kv => !(decide (kv.2.abs ∈ header.abs :: seen))) rest ≤
          List.countP (fun kv => !(decide (kv.2.abs ∈ seen))) rest := by
        apply List.countP_mono_left
        intro kv' _ hkv
        simp only [Bool.not_eq_true', decide_eq_false_iff_not, List.mem_cons] at hkv ⊢
        exact fun hmem' => hkv (Or.inr hmem')
      rw [hold, hnew]
      have e1 : (if false = true then 1 else 0) = 0 := rfl
      have e2 : (if true = true then 1 else 0) = 1 := rfl
      rw [e1, e2]
      omega
    · have hc : (if (!(decide (kv.2.abs ∈ header.abs :: seen))) = true then 1 else 0) ≤
          (if (!(decide (kv.2.abs ∈ seen))) = true then 1 else 0) := by
        by_cases hin : kv.2.abs ∈ seen
        · simp [hin]
        · have h1 : (!(decide (kv.2.abs ∈ seen))) = true := by simp [hin]
          rw [h1, if_pos rfl]
          split <;> omega
      have := ih hrest
      omega

theorem fuel_line_of_file {cfg : Config} {fuel : Nat}
    (hfile : ∀ src st, 1 + unseenCnt cfg st.seen ≤ fuel →
      write_file cfg fuel src st ≠ .error .outOfFuel) :
    ∀ src line lineno st, unseenCnt cfg st.seen ≤ fuel →
      write_line cfg fuel src line lineno st ≠ .error .outOfFuel := by
  intro src line lineno st hle
  cases hm : matchInclude line.data with
  | none => rw [write_line_nonInclude cfg fuel src lineno st hm]; intro h; exact Except.noConfusion h
  | some v =>
    cases hl : pyLookup cfg.includes_to_paths v with
    | none =>
      by_cases hs : sysKey v ∈ st.seen
      · rw [write_line_sys_seen cfg fuel src lineno st hm hl hs]
        intro h; exact Except.noConfusion h
      · rw [write_line_sys_new cfg fuel src lineno st hm hl hs]
        intro h; exact Except.noConfusion h
    | some header =>
      by_cases hs : header.abs ∈ st.seen
      · rw [write_line_resolved_seen cfg fuel src lineno st hm hl hs]
        intro h; exact Except.noConfusion h
      · rw [write_line_resolved_new cfg fuel src lineno st hm hl hs]
        unfold expandResult
        obtain ⟨inc, _, hmem⟩ := pyLookup_mem hl
        have hlt : unseenCnt cfg (header.abs :: st.seen) < unseenCnt cfg st.seen :=
          unseenCnt_lt hmem hs
        have hseen : (emit (.includeBanner header src)
            { st with seen := header.abs :: st.seen }).seen = header.abs :: st.seen := rfl
        have hfile' := hfile header
          (emit (.includeBanner header src) { st with seen := header.abs :: st.seen })
          (by rw [hseen]; omega)
        cases hw : write_file cfg fuel header
            (emit (.includeBanner header src) { st with seen := header.abs :: st.seen }) with
        | error e =>
          simp only [hw]
          intro h
          injection h with h
          rw [hw] at hfile'
          exact hfile' (by rw [h])
        | ok st₂ =>
          simp only [hw]
          intro h
          exact Except.noConfusion h

theorem fuel_lines_of_line {cfg : Config} {fuel : Nat}
    (hline : ∀ src line lineno st, unseenCnt cfg st.seen ≤ fuel →
      write_line cfg fuel src line lineno st ≠ .error .outOfFuel) :
    ∀ src lines lineno st, unseenCnt cfg st.seen ≤ fuel →
      write_lines cfg fuel src lines lineno st ≠ .error .outOfFuel := by
  intro src lines
  induction lines with
  | nil =>
    intro lineno st _ h
    rw [write_lines_nil] at h
    exact Except.noConfusion h
  | cons line rest ih =>
    intro lineno st hle h
    rw [write_lines_cons] at h
    cases hw : write_line cfg fuel src line lineno st with
    | error e =>
      rw [hw] at h
      injection h with h
      exact hline src line lineno st hle (by rw [hw, h])
    | ok st₂ =>
      rw [hw] at h
      have hmono := (write_line_preserves cfg fuel _ _ _ _ _ hw).1
      exact ih (lineno + 1) st₂ (le_trans (unseenCnt_mono hmono) hle) h

theorem fuel_file_succ {cfg : Config} {fuel : Nat}
    (hlines : ∀ src lines lineno st, unseenCnt cfg st.seen ≤ fuel →
      write_lines cfg fuel src lines lineno st ≠ .error .outOfFuel) :
    ∀ src st, 1 + unseenCnt cfg st.seen ≤ fuel + 1 →
      write_file cfg (fuel + 1) src st ≠ .error .outOfFuel := by
  intro src st hle h
  rw [write_file_succ] at h
  cases ha : alookup cfg.fs src.abs with
  | none =>
    simp only [ha] at h
    injection h with h
    exact WErr.noConfusion h
  | some lines =>
    simp only [ha] at h
    cases hw : write_lines cfg fuel src lines 1
        (if cfg.line_macros then emit (.lineDirective 1 src.rel) (emit (.beginFile src) st)
         else emit (.beginFile src) st) with
    | error e =>
      simp only [hw] at h
      injection h with h
      have hseen : (if cfg.line_macros then emit (.lineDirective 1 src.rel) (emit (.beginFile src) st)
          else emit (.beginFile src) st).seen = st.seen := by
        by_cases hlm : cfg.line_macros
        · rw [if_pos hlm]
          rfl
        · rw [if_neg hlm]
          rfl
      exact hlines src lines 1 _ (by rw [hseen]; omega) (by rw [hw, h])
    | ok st₃ =>
      simp only [hw] at h
      exact Except.noConfusion h

/-- `write_file` never exhausts its fuel when the fuel exceeds the number
of include-table entries whose target is still unexpanded: the recursion
of the Python writer is bounded, whatever the include graph looks like
(cyclic tables included). -/
theorem write_file_fuel (cfg : Config) :
    ∀ fuel src st, 1 + unseenCnt cfg st.seen ≤ fuel →
      write_file cfg fuel src st ≠ .error .outOfFuel := by
  intro fuel
  induction fuel with
  | zero => intro src st hle; omega
  | succ fuel ih =>
    exact fuel_file_succ (fuel_lines_of_line (fuel_line_of_file ih))

theorem write_files_fuel (cfg : Config) {fuel : Nat}
    (hfuel : cfg.includes_to_paths.length + 1 ≤ fuel) :
    ∀ srcs st, write_files cfg fuel srcs st ≠ .error .outOfFuel := by
  intro srcs
  induction srcs with
  | nil =>
    intro st h
    rw [write_files] at h
    exact Except.noConfusion h
  | cons src rest ih =>
    intro st h
    rw [write_files] at h
    cases hw : write_file cfg fuel src st with
    | error e =>
      rw [hw] at h
      injection h with h
      have hb := unseenCnt_le_length cfg st.seen
      exact write_file_fuel cfg fuel src st (by omega) (by rw [hw, h])
    | ok st₂ =>
      rw [hw] at h
      exact ih st₂ h

/-! ## The comment-escaping step never leaves a comment token -/

theorem pyReplace_nil (p0 : Char) (pr rep : List Char) :
    pyReplace p0 pr rep [] = [] := by
  rw [pyReplace]

theorem pyReplace_pos {p0 : Char} {pr : List Char} {c : Char} {rest : List Char}
    (rep : List Char) (h : (p0 :: pr).isPrefixOf (c :: rest) = true) :
    pyReplace p0 pr rep (c :: rest) = rep ++ pyReplace p0 pr rep (rest.drop pr.length) := by
  rw [pyReplace, if_pos h]

theorem pyReplace_neg {p0 : Char} {pr : List Char} {c : Char} {rest : List Char}
    (rep : List Char) (h : ¬ (p0 :: pr).isPrefixOf (c :: rest) = true) :
    pyReplace p0 pr rep (c :: rest) = c :: pyReplace p0 pr rep rest := by
  rw [pyReplace, if_neg h]

theorem esc1_match (t : List Char) :
    pyReplace '/' ['*'] ['|', '*'] ('/' :: '*' :: t) =
      '|' :: '*' :: pyReplace '/' ['*'] ['|', '*'] t := by
  rw [pyReplace_pos _ (by simp [List.isPrefixOf])]
  rfl

theorem esc1_single (c : Char) :
    pyReplace '/' ['*'] ['|', '*'] [c] = [c] := by
  rw [pyReplace_neg _ (by simp [List.isPrefixOf]), pyReplace_nil]

theorem esc1_skip {c d : Char} (t : List Char) (h : ¬(c = '/' ∧ d = '*')) :
    pyReplace '/' ['*'] ['|', '*'] (c :: d :: t) =
      c :: pyReplace '/' ['*'] ['|', '*'] (d :: t) := by
  apply pyReplace_neg
  simp only [List.isPrefixOf, Bool.and_eq_true, beq_iff_eq, List.isPrefixOf_cons₂_self]
  intro hh
  rcases hh with ⟨h1, h2, _⟩
  exact h ⟨h1.symm, h2.symm⟩

theorem esc1_head : ∀ l : List Char, l.head? ≠ some '*' →
    (pyReplace '/' ['*'] ['|', '*'] l).head? ≠ some '*' := by
  intro l hl
  match l with
  | [] => rw [pyReplace_nil]; exact hl
  | [c] => rw [esc1_single]; exact hl
  | c :: d :: t =>
    by_cases hcd : c = '/' ∧ d = '*'
    · obtain ⟨rfl, rfl⟩ := hcd
      rw [esc1_match]
      simp
    · rw [esc1_skip t hcd]
      exact hl

theorem singleton_prefix_head {c : Char} {l : List Char} (h : [c] <+: l) :
    l.head? = some c := by
  obtain ⟨t, ht⟩ := h
  rw [← ht]
  rfl

theorem esc1_no_open : ∀ (n : Nat) (l : List Char), l.length ≤ n →
    ¬ ['/', '*'] <:+: pyReplace '/' ['*'] ['|', '*'] l := by
  intro n
  induction n with
  | zero =>
    intro l hl
    have : l = [] := List.length_eq_zero.mp (Nat.le_zero.mp hl)
    subst this
    rw [pyReplace_nil]
    simp
  | succ n ih =>
    intro l hl
    match l with
    | [] => rw [pyReplace_nil]; simp
    | [c] =>
      rw [esc1_single]
      intro h
      have := h.sublist.length_le
      simp at this
    | c :: d :: t =>
      by_cases hcd : c = '/' ∧ d = '*'
      · obtain ⟨rfl, rfl⟩ := hcd
        rw [esc1_match]
        intro h
        rcases List.infix_cons_iff.mp h with hp | h2
        · rcases List.cons_prefix_cons.mp hp with ⟨hc, _⟩
          exact absurd hc (by decide)
        · rcases List.infix_cons_iff.mp h2 with hp | h3
          · rcases List.cons_prefix_cons.mp hp with ⟨hc, _⟩
            exact absurd hc (by decide)
          · have hlen : t.length ≤ n := by
              simp only [List.length_cons] at hl
              omega
            exact ih t hlen h3
      · rw [esc1_skip t hcd]
        intro h
        rcases List.infix_cons_iff.mp h with hp | h2
        · rcases List.cons_prefix_cons.mp hp with ⟨hc, hpre⟩
          subst hc
          have hd : d ≠ '*' := fun hd => hcd ⟨rfl, hd⟩
          have hhead : (d :: t).head? ≠ some '*' := by
            simp [hd]
          exact esc1_head (d :: t) hhead (singleton_prefix_head hpre)
        · have hlen : (d :: t).length ≤ n := by
            simp only [List.length_cons] at hl ⊢
            omega
          exact ih (d :: t) hlen h2

theorem esc2_match (t : List Char) :
    pyReplace '*' ['/'] ['*', '|'] ('*' :: '/' :: t) =
      '*' :: '|' :: pyReplace '*' ['/'] ['*', '|'] t := by
  rw [pyReplace_pos _ (by simp [List.isPrefixOf])]
  rfl

theorem esc2_single (c : Char) :
    pyReplace '*' ['/'] ['*', '|'] [c] = [c] := by
  rw [pyReplace_neg _ (by simp [List.isPrefixOf]), pyReplace_nil]

theorem esc2_skip {c d : Char} (t : List Char) (h : ¬(c = '*' ∧ d = '/')) :
    pyReplace '*' ['/'] ['*', '|'] (c :: d :: t) =
      c :: pyReplace '*' ['/'] ['*', '|'] (d :: t) := by
  apply pyReplace_neg
  simp only [List.isPrefixOf, Bool.and_eq_true, beq_iff_eq, List.isPrefixOf_cons₂_self]
  intro hh
  rcases hh with ⟨h1, h2, _⟩
  exact h ⟨h1.symm, h2.symm⟩

theorem esc2_head_slash : ∀ l : List Char, l.head? ≠ some '/' →
    (pyReplace '*' ['/'] ['*', '|'] l).head? ≠ some '/' := by
  intro l hl
  match l with
  | [] => rw [pyReplace_nil]; exact hl
  | [c] => rw [esc2_single]; exact hl
  | c :: d :: t =>
    by_cases hcd : c = '*' ∧ d = '/'
    · obtain ⟨rfl, rfl⟩ := hcd
      rw [esc2_match]
      simp
    · rw [esc2_skip t hcd]
      exact hl

theorem esc2_head_star : ∀ l : List Char, l.head? ≠ some '*' →
    (pyReplace '*' ['/'] ['*', '|'] l).head? ≠ some '*' := by
  intro l hl
  match l with
  | [] => rw [pyReplace_nil]; exact hl
  | [c] => rw [esc2_single]; exact hl
  | c :: d :: t =>
    by_cases hcd : c = '*' ∧ d = '/'
    · obtain ⟨rfl, rfl⟩ := hcd
      exact absurd rfl hl
    · rw [esc2_skip t hcd]
      exact hl

theorem esc2_no_tokens : ∀ (n : Nat) (l : List Char), l.length ≤ n →
    ¬ ['/', '*'] <:+: l →
    ¬ ['*', '/'] <:+: pyReplace '*' ['/'] ['*', '|'] l ∧
    ¬ ['/', '*'] <:+: pyReplace '*' ['/'] ['*', '|'] l := by
  intro n
  induction n with
  | zero =>
    intro l hl _
    have : l = [] := List.length_eq_zero.mp (Nat.le_zero.mp hl)
    subst this
    rw [pyReplace_nil]
    constructor <;> simp
  | succ n ih =>
    intro l hl hno
    match l with
    | [] =>
      rw [pyReplace_nil]
      constructor <;> simp
    | [c] =>
      rw [esc2_single]
      constructor <;> intro h <;> · have := h.sublist.length_le; simp at this
    | c :: d :: t =>
      have htno : ¬ ['/', '*'] <:+: (d :: t) := fun h => hno (List.infix_cons h)
      by_cases hcd : c = '*' ∧ d = '/'
      · obtain ⟨rfl, rfl⟩ := hcd
        rw [esc2_match]
        have httno : ¬ ['/', '*'] <:+: t := fun h => htno (List.infix_cons h)
        have hlen : t.length ≤ n := by
          simp only [List.length_cons] at hl
          omega
        obtain ⟨ihA, ihB⟩ := ih t hlen httno
        constructor
        · intro h
          rcases List.infix_cons_iff.mp h with hp | h2
          · rcases List.cons_prefix_cons.mp hp with ⟨hc, hpre⟩
            rcases List.cons_prefix_cons.mp hpre with ⟨hc2, _⟩
            exact absurd hc2 (by decide)
          · rcases List.infix_cons_iff.mp h2 with hp | h3
            · rcases List.cons_prefix_cons.mp hp with ⟨hc, _⟩
              exact absurd hc (by decide)
            · exact ihA h3
        · intro h
          rcases List.infix_cons_iff.mp h with hp | h2
          · rcases List.cons_prefix_cons.mp hp with ⟨hc, _⟩
            exact absurd hc (by decide)
          · rcases List.infix_cons_iff.mp h2 with hp | h3
            · rcases List.cons_prefix_cons.mp hp with ⟨hc, _⟩
              exact absurd hc (by decide)
            · exact ihB h3
      · rw [esc2_skip t hcd]
        have hlen : (d :: t).length ≤ n := by
          simp only [List.length_cons] at hl ⊢
          omega
        obtain ⟨ihA, ihB⟩ := ih (d :: t) hlen htno
        constructor
        · intro h
          rcases List.infix_cons_iff.mp h with hp | h2
          · rcases List.cons_prefix_cons.mp hp with ⟨hc, hpre⟩
            subst hc
            have hd : d ≠ '/' := fun hd => hcd ⟨rfl, hd⟩
            have hhead : (d :: t).head? ≠ some '/' := by simp [hd]
            exact esc2_head_slash (d :: t) hhead (singleton_prefix_head hpre)
          · exact ihA h2
        · intro h
          rcases List.infix_cons_iff.mp h with hp | h2
          · rcases List.cons_prefix_cons.mp hp with ⟨hc, hpre⟩
            subst hc
            have hd : d ≠ '*' := by
              intro hd
              subst hd
              exact hno ⟨[], t, by simp⟩
            have hhead : (d :: t).head? ≠ some '*' := by simp [hd]
            exact esc2_head_star (d :: t) hhead (singleton_prefix_head hpre)
          · exact ihB h2

/-- The composed escaping of `_comment_line` leaves neither a `/*` nor a
`*/` token in the escaped line. -/
theorem escapeChars_no_tokens (l : List Char) :
    ¬ ['/', '*'] <:+: escapeChars l ∧ ¬ ['*', '/'] <:+: escapeChars l := by
  unfold escapeChars
  have h1 := esc1_no_open (pyReplace '/' ['*'] ['|', '*'] l).length
    (pyReplace '/' ['*'] ['|', '*'] l)
  -- the first replace leaves no comment-start token; feed that to the second
  obtain ⟨hA, hB⟩ := esc2_no_tokens (pyReplace '/' ['*'] ['|', '*'] l).length
    (pyReplace '/' ['*'] ['|', '*'] l) le_rfl (esc1_no_open _ l le_rfl)
  exact ⟨hB, hA⟩

/-! ## Shape of section banners -/

theorem section_comment_string_spec (text : String) :
    section_comment_string text =
      "/************** " ++ text ++ " " ++
        String.mk (List.replicate (61 - text.length) '*') ++ "*/\n" ∧
    (section_comment_string text).length = max 80 (19 + text.length) + 1 := by
  have hlen : ("/************** " ++ text ++ " " : String).length = 17 + text.length := by
    rw [String.length_append, String.length_append]
    have h1 : ("/************** " : String).length = 16 := rfl
    have h2 : (" " : String).length = 1 := rfl
    rw [h1, h2]
    omega
  have hclose : ("*/" : String).length = 2 := rfl
  have hnl : ("*/\n" : String).length = 3 := rfl
  have hstars : ∀ k, (String.mk (List.replicate k '*')).length = k := by
    intro k
    show (List.replicate k '*').length = k
    rw [List.length_replicate]
  unfold section_comment_string
  dsimp only
  rw [hlen, hclose]
  split_ifs with hcond
  · have htlen : text.length ≤ 60 := by
      push_cast at hcond
      omega
    have htn : ((80 : Int) - ((17 + text.length : Nat) : Int) - ((2 : Nat) : Int)).toNat =
        61 - text.length := by
      omega
    rw [htn]
    refine ⟨rfl, ?_⟩
    rw [String.length_append, String.length_append, hlen, hstars, hnl]
    omega
  · have htlen : 61 ≤ text.length := by
      push_cast at hcond
      omega
    have hz : 61 - text.length = 0 := by omega
    rw [hz]
    constructor
    · have hmk : String.mk (List.replicate 0 '*') = "" := rfl
      rw [hmk, String.append_empty]
    · rw [String.length_append, hlen, hnl]
      omega

/-! ## Claim theorems -/

/-- Claim C5 (confirmed).  For every input line, the escaping step of
`_comment_line` (`line.replace("/*", "|*").replace("*/", "*|")`) leaves
neither a block-comment start token `/*` nor a block-comment end token
`*/` anywhere in the escaped body, and the emitted line is that body
wrapped in a single `/* ... */` comment; in particular a `*/` in the input
has been replaced by the neutral pair `*|`, so the wrapping comment can
neither be prematurely closed nor reopened. -/
theorem c5_comment_escape_safe (line : String) :
    ¬ ['/', '*'] <:+: escapeChars line.data ∧
    ¬ ['*', '/'] <:+: escapeChars line.data ∧
    comment_line line = "/* " ++ String.mk (escapeChars line.data) ++ " */\n" :=
  ⟨(escapeChars_no_tokens line.data).1, (escapeChars_no_tokens line.data).2, rfl⟩

/-- Claim C6 (confirmed).  Every section banner is the fixed prefix, the
title, one space, a run of `*` padding, and the closing `*/`; the padding
run has length `61 - len(title)` (zero when the title is long), so the
visible banner line (excluding the newline) is exactly `80` columns when
`prefix + title + markers` fits, and `19 + len(title)` columns — the text
intact, never truncated — when it does not. -/
theorem c6_banner_width (text : String) :
    section_comment_string text =
      "/************** " ++ text ++ " " ++
        String.mk (List.replicate (61 - text.length) '*') ++ "*/\n" ∧
    (section_comment_string text).length = max 80 (19 + text.length) + 1 :=
  section_comment_string_spec text

/-- Claim C9 (confirmed).  A line whose include syntax is malformed (an
unterminated quote or an unclosed angle bracket) does not match the
include pattern, so `_write_line` emits it verbatim followed by a newline
and raises no error. -/
theorem c9_malformed_include_passthrough :
    (∀ (cfg : Config) (fuel : Nat) (src : SourcePath) (lineno : Nat)
       (st : WState) (line : String),
      matchInclude line.data = none →
        write_line cfg fuel src line lineno st = .ok (emit (.verbatim line) st) ∧
        render (.verbatim line) = line ++ "\n") ∧
    matchInclude "#include \x22foo".data = none ∧
    matchInclude "#include <foo".data = none :=
  ⟨fun cfg fuel src lineno st line hm =>
    ⟨write_line_nonInclude cfg fuel src lineno st hm, rfl⟩,
   by rfl, by rfl⟩

theorem c9_witness :
    write_line cfgBasic 1 aSrc "#include <foo" 2 ⟨[], []⟩ =
      .ok (emit (.verbatim "#include <foo") ⟨[], []⟩) ∧
    render (.verbatim "#include <foo") = "#include <foo" ++ "\n" :=
  c9_malformed_include_passthrough.1 cfgBasic 1 aSrc 2 ⟨[], []⟩ "#include <foo" (by rfl)

/-- Claim C10 (confirmed).  On the first expansion of a resolved include,
the result of `_write_line` is `expandResult`, which never takes the
original line as an argument: the include line itself is replaced entirely
by the `Include ...` banner, the inlined file and the continuation banner.
Consequently any two lines whose include expressions evaluate to the same
value — including lines with trailing text after the closing delimiter —
produce identical output. -/
theorem c10_include_line_discarded
    (cfg : Config) (fuel : Nat) (src : SourcePath) (l₁ l₂ : String) (lineno : Nat)
    (st : WState) (v : Option String) (header : SourcePath)
    (hm₁ : matchInclude l₁.data = some v) (hm₂ : matchInclude l₂.data = some v)
    (hl : pyLookup cfg.includes_to_paths v = some header)
    (hs : header.abs ∉ st.seen) :
    write_line cfg fuel src l₁ lineno st = expandResult cfg fuel src header lineno st ∧
    write_line cfg fuel src l₁ lineno st = write_line cfg fuel src l₂ lineno st := by
  constructor
  · exact write_line_resolved_new cfg fuel src lineno st hm₁ hl hs
  · rw [write_line_resolved_new cfg fuel src lineno st hm₁ hl hs,
        write_line_resolved_new cfg fuel src lineno st hm₂ hl hs]

theorem c10_witness :
    (write_line cfgBasic 5 aSrc "#include \x22b.h\x22" 1 ⟨[], []⟩ =
      expandResult cfgBasic 5 aSrc bHdr 1 ⟨[], []⟩) ∧
    (write_line cfgBasic 5 aSrc "#include \x22b.h\x22" 1 ⟨[], []⟩ =
      write_line cfgBasic 5 aSrc "#include \x22b.h\x22 // trailing junk" 1 ⟨[], []⟩) :=
  c10_include_line_discarded cfgBasic 5 aSrc "#include \x22b.h\x22"
    "#include \x22b.h\x22 // trailing junk" 1 ⟨[], []⟩ (some "b.h") bHdr
    (by rfl) (by rfl) (by rfl) (by simp)

/-- Claim C3 counterexample.  On the cyclic table (`b.h` includes `c.h`,
`c.h` includes `b.h`) the run raises no error of any kind: it returns
normally, `b.h` and `c.h` are each expanded once, and the back-reference
to `b.h` inside `c.h` is emitted as a comment — the claim that a
detectable cycle error is raised is false. -/
theorem c3_counterexample :
    amalgamate_sources cfgCycle 5 [aSrc] =
      .ok ⟨["/proj/c.h", "/proj/b.h"],
        [.endFile aSrc, .continuingBanner aSrc, .endFile bHdr, .continuingBanner bHdr,
         .endFile cHdr, .commented "#include \x22b.h\x22", .beginFile cHdr,
         .includeBanner cHdr bHdr, .beginFile bHdr, .includeBanner bHdr aSrc,
         .beginFile aSrc]⟩ := by
  rfl

/-- Claim C3 (corrected).  The writer does not raise a cycle error; it
does not need one: because a header's absolute path is added to the
seen-set *before* recursing into it, the recursion depth is bounded by the
include table and a cyclic back-reference is emitted as a comment.  For
any configuration and any number of sources, fuel exceeding the table size
is never exhausted — the recursion is bounded, with no error raised. -/
theorem c3_amended_no_unbounded_recursion
    (cfg : Config) (fuel : Nat) (srcs : List SourcePath)
    (hfuel : cfg.includes_to_paths.length + 1 ≤ fuel) :
    amalgamate_sources cfg fuel srcs ≠ .error .outOfFuel := by
  unfold amalgamate_sources
  exact write_files_fuel cfg hfuel srcs ⟨[], []⟩

theorem c3_witness : amalgamate_sources cfgCycle 5 [aSrc] ≠ .error .outOfFuel :=
  c3_amended_no_unbounded_recursion cfgCycle 5 [aSrc] (by decide)

/-- Claim C4 counterexample.  With the same source listed twice, both
top-level entries are fully expanded: the output contains two `Begin file
a.cpp` banners and the file's contents twice.  The seen-set does not
pre-empt the second top-level expansion, because `write_file` never
consults it for the file itself. -/
theorem c4_counterexample :
    amalgamate_sources cfgDup 3 [aSrc, aSrc] =
      .ok ⟨[], [.endFile aSrc, .verbatim "int x;", .beginFile aSrc,
                .endFile aSrc, .verbatim "int x;", .beginFile aSrc]⟩ ∧
    List.countP (fun o => o == OutLine.beginFile aSrc)
      [OutLine.endFile aSrc, OutLine.verbatim "int x;", OutLine.beginFile aSrc,
       OutLine.endFile aSrc, OutLine.verbatim "int x;", OutLine.beginFile aSrc] = 2 :=
  ⟨by rfl, by rfl⟩

/-- Claim C4 (corrected).  A duplicate top-level entry is *not* subject to
the global seen-set: even when the file's absolute path is already in the
seen-set, `write_file` unconditionally re-emits its `Begin`/`End` banners
and re-processes its lines (only the include directives inside it are
deduplicated). -/
theorem c4_amended_toplevel_always_expanded
    (cfg : Config) (fuel : Nat) (src : SourcePath) (st st' : WState)
    (hseen : src.abs ∈ st.seen)
    (h : write_file cfg (fuel + 1) src st = .ok st') :
    ∃ ext, st'.out = ext ++ st.out ∧ .beginFile src ∈ ext ∧ .endFile src ∈ ext := by
  rw [write_file_succ] at h
  cases ha : alookup cfg.fs src.abs with
  | none =>
    simp only [ha] at h
    exact Except.noConfusion h
  | some lines =>
    simp only [ha] at h
    cases hw : write_lines cfg fuel src lines 1
        (if cfg.line_macros then emit (.lineDirective 1 src.rel) (emit (.beginFile src) st)
         else emit (.beginFile src) st) with
    | error e =>
      simp only [hw] at h
      exact Except.noConfusion h
    | ok st₃ =>
      simp only [hw] at h
      injection h with h
      subst h
      obtain ⟨ext₂, hext⟩ := (write_lines_preserves cfg fuel _ _ _ _ _ hw).2.1
      by_cases hlm : cfg.line_macros
      · rw [if_pos hlm] at hext
        refine ⟨.endFile src :: ext₂ ++ [.lineDirective 1 src.rel, .beginFile src],
          ?_, by simp, by simp⟩
        show OutLine.endFile src :: st₃.out = _
        rw [hext]
        show OutLine.endFile src :: (ext₂ ++
          (OutLine.lineDirective 1 src.rel :: OutLine.beginFile src :: st.out)) = _
        simp
      · rw [if_neg hlm] at hext
        refine ⟨.endFile src :: ext₂ ++ [.beginFile src], ?_, by simp, by simp⟩
        show OutLine.endFile src :: st₃.out = _
        rw [hext]
        show OutLine.endFile src :: (ext₂ ++ (OutLine.beginFile src :: st.out)) = _
        simp

theorem c4_witness :
    ∃ ext, (⟨["/proj/a.cpp"],
        [.endFile aSrc, .verbatim "int x;", .beginFile aSrc]⟩ : WState).out =
      ext ++ ([] : List OutLine) ∧
      OutLine.beginFile aSrc ∈ ext ∧ OutLine.endFile aSrc ∈ ext :=
  c4_amended_toplevel_always_expanded cfgDup 2 aSrc ⟨["/proj/a.cpp"], []⟩
    ⟨["/proj/a.cpp"], [.endFile aSrc, .verbatim "int x;", .beginFile aSrc]⟩
    (by decide) (by rfl)

/-- `sysKey` always begins with the `$//` prefix. -/
theorem sysKey_data (v : Option String) :
    (sysKey v).data = '$' :: '/' :: '/' :: (pyFStr v).data := by
  unfold sysKey
  generalize pyFStr v = s
  cases s with
  | mk l => rfl

/-- Claim C1 (confirmed).  An include that resolves in the table is
expanded in full exactly at its first encounter during the writer's
depth-first, left-to-right walk (the execution order of `_write_line`):
if the header's absolute path is already in the seen-set the original line
is emitted as a comment and nothing else changes; if it is not, the result
is `expandResult` — banner, full recursive expansion, banner — and the
path enters the seen-set; and over any complete run from a fresh writer,
each absolute path is expanded at most once. -/
theorem c1_resolved_expand_once
    (cfg : Config) (fuel : Nat) (src : SourcePath) (line : String) (lineno : Nat)
    (st : WState) (v : Option String) (header : SourcePath)
    (hm : matchInclude line.data = some v)
    (hl : pyLookup cfg.includes_to_paths v = some header) :
    (header.abs ∈ st.seen →
      write_line cfg fuel src line lineno st = .ok (emit (.commented line) st)) ∧
    (header.abs ∉ st.seen →
      write_line cfg fuel src line lineno st = expandResult cfg fuel src header lineno st) ∧
    (∀ srcs st', amalgamate_sources cfg fuel srcs = .ok st' →
      ∀ p, expandCount p st'.out ≤ 1) := by
  refine ⟨fun hs => write_line_resolved_seen cfg fuel src lineno st hm hl hs,
          fun hs => write_line_resolved_new cfg fuel src lineno st hm hl hs,
          fun srcs st' h p => ?_⟩
  unfold amalgamate_sources at h
  have hpres := write_files_preserves cfg fuel srcs ⟨[], []⟩ st' h
  have hInv : InvA ⟨[], []⟩ := by
    intro q
    show expandCount q [] ≤ _
    simp [expandCount]
  have hfin := hpres.2.2.1 hInv p
  by_cases hp : p ∈ st'.seen
  · rw [if_pos hp] at hfin
    exact hfin
  · rw [if_neg hp] at hfin
    omega

theorem c1_witness :
    (write_line cfgBasic 5 aSrc "#include \x22./b.h\x22" 3 ⟨["/proj/b.h"], []⟩ =
      .ok (emit (.commented "#include \x22./b.h\x22") ⟨["/proj/b.h"], []⟩)) ∧
    (write_line cfgBasic 5 aSrc "#include \x22b.h\x22" 1 ⟨[], []⟩ =
      expandResult cfgBasic 5 aSrc bHdr 1 ⟨[], []⟩) ∧
    expandCount "/proj/b.h" outBasic ≤ 1 := by
  refine ⟨?_, ?_, ?_⟩
  · exact (c1_resolved_expand_once cfgBasic 5 aSrc "#include \x22./b.h\x22" 3
      ⟨["/proj/b.h"], []⟩ (some "./b.h") bHdr (by rfl) (by rfl)).1 (by decide)
  · exact (c1_resolved_expand_once cfgBasic 5 aSrc "#include \x22b.h\x22" 1
      ⟨[], []⟩ (some "b.h") bHdr (by rfl) (by rfl)).2.1 (by decide)
  · exact (c1_resolved_expand_once cfgBasic 5 aSrc "#include \x22b.h\x22" 1
      ⟨[], []⟩ (some "b.h") bHdr (by rfl) (by rfl)).2.2 [aSrc]
      ⟨["$//stdio.h", "/proj/b.h"], outBasic⟩ (by rfl) "/proj/b.h"

/-- Claim C2 (confirmed).  An include literal absent from the table is
passed through verbatim the first time its synthetic key is unseen and
commented out whenever the key has been seen — across the whole run,
whatever source file the line sits in — and in any complete run from a
fresh writer, at most one verbatim line carrying that include value is
ever emitted. -/
theorem c2_system_include_once
    (cfg : Config) (fuel : Nat) (src : SourcePath) (line : String) (lineno : Nat)
    (st : WState) (v : Option String)
    (hm : matchInclude line.data = some v)
    (hl : pyLookup cfg.includes_to_paths v = none) :
    (sysKey v ∈ st.seen →
      write_line cfg fuel src line lineno st = .ok (emit (.commented line) st)) ∧
    (sysKey v ∉ st.seen →
      write_line cfg fuel src line lineno st =
        .ok (emit (.verbatim line) { st with seen := sysKey v :: st.seen })) ∧
    (∀ srcs st', amalgamate_sources cfg fuel srcs = .ok st' → sysCount v st'.out ≤ 1) := by
  refine ⟨fun hs => write_line_sys_seen cfg fuel src lineno st hm hl hs,
          fun hs => write_line_sys_new cfg fuel src lineno st hm hl hs,
          fun srcs st' h => ?_⟩
  unfold amalgamate_sources at h
  have hpres := write_files_preserves cfg fuel srcs ⟨[], []⟩ st' h
  have hInv : InvB cfg ⟨[], []⟩ := by
    intro w hw
    show sysCount w [] ≤ _
    simp [sysCount]
  have hfin := hpres.2.2.2 hInv v hl
  by_cases hp : sysKey v ∈ st'.seen
  · rw [if_pos hp] at hfin
    exact hfin
  · rw [if_neg hp] at hfin
    omega

theorem c2_witness :
    (write_line cfgBasic 5 aSrc "#include <stdio.h>" 6 ⟨["$//stdio.h"], []⟩ =
      .ok (emit (.commented "#include <stdio.h>") ⟨["$//stdio.h"], []⟩)) ∧
    (write_line cfgBasic 5 aSrc "#include <stdio.h>" 4 ⟨[], []⟩ =
      .ok (emit (.verbatim "#include <stdio.h>")
        { seen := sysKey (some "stdio.h") :: [], out := [] })) ∧
    sysCount (some "stdio.h") outBasic ≤ 1 := by
  refine ⟨?_, ?_, ?_⟩
  · exact (c2_system_include_once cfgBasic 5 aSrc "#include <stdio.h>" 6
      ⟨["$//stdio.h"], []⟩ (some "stdio.h") (by rfl) (by rfl)).1 (by decide)
  · exact (c2_system_include_once cfgBasic 5 aSrc "#include <stdio.h>" 4
      ⟨[], []⟩ (some "stdio.h") (by rfl) (by rfl)).2.1 (by decide)
  · exact (c2_system_include_once cfgBasic 5 aSrc "#include <stdio.h>" 4
      ⟨[], []⟩ (some "stdio.h") (by rfl) (by rfl)).2.2 [aSrc]
      ⟨["$//stdio.h", "/proj/b.h"], outBasic⟩ (by rfl)

/-- Claim C7 (confirmed).  The seen-set identity of a resolved header is
its canonical absolute path — an include reaching the same absolute path
through a different literal or relative spelling is commented out, not
re-expanded — while an unresolved include is recorded under the synthetic
`$//`-prefixed key, which can never equal an absolute path (absolute
paths begin with `/`, synthetic keys with `$`). -/
theorem c7_seen_key_identity :
    (∀ (v : Option String) (abs : String),
      abs.data.head? = some '/' → sysKey v ≠ abs) ∧
    (∀ (cfg : Config) (fuel₁ fuel₂ : Nat) (src src' : SourcePath) (l₁ l₂ : String)
       (n₁ n₂ : Nat) (st st₁ : WState) (v₁ v₂ : Option String) (h₁ h₂ : SourcePath),
      matchInclude l₁.data = some v₁ →
      pyLookup cfg.includes_to_paths v₁ = some h₁ →
      h₁.abs ∉ st.seen →
      write_line cfg fuel₁ src l₁ n₁ st = .ok st₁ →
      matchInclude l₂.data = some v₂ →
      pyLookup cfg.includes_to_paths v₂ = some h₂ →
      h₂.abs = h₁.abs →
      write_line cfg fuel₂ src' l₂ n₂ st₁ = .ok (emit (.commented l₂) st₁)) := by
  constructor
  · intro v abs habs heq
    have hd := congrArg String.data heq
    rw [sysKey_data] at hd
    rw [← hd] at habs
    simp at habs
  · intro cfg fuel₁ fuel₂ src src' l₁ l₂ n₁ n₂ st st₁ v₁ v₂ h₁ h₂ hm₁ hl₁ hs₁ hw₁ hm₂ hl₂ habs
    rw [write_line_resolved_new cfg fuel₁ src n₁ st hm₁ hl₁ hs₁] at hw₁
    unfold expandResult at hw₁
    cases hwf : write_file cfg fuel₁ h₁
        (emit (.includeBanner h₁ src) { st with seen := h₁.abs :: st.seen }) with
    | error e =>
      simp only [hwf] at hw₁
      exact Except.noConfusion hw₁
    | ok st₂ =>
      simp only [hwf] at hw₁
      injection hw₁ with hw₁
      have hmono := (write_file_preserves cfg fuel₁ _ _ _ hwf).1
      have hmem : h₁.abs ∈ st₂.seen := hmono h₁.abs (List.mem_cons_self _ _)
      have hseen : st₁.seen = st₂.seen := by
        rw [← hw₁]
        by_cases hlm : cfg.line_macros
        · rw [if_pos hlm]
          rfl
        · rw [if_neg hlm]
          rfl
      exact write_line_resolved_seen cfg fuel₂ src' n₂ st₁ hm₂ hl₂
        (by rw [hseen, habs]; exact hmem)

theorem c7_witness :
    sysKey (some "/proj/b.h") ≠ "/proj/b.h" ∧
    write_line cfgBasic 5 aSrc "#include \x22./b.h\x22" 2
      ⟨["/proj/b.h"], [.continuingBanner aSrc, .endFile bHdr, .verbatim "int b;",
        .beginFile bHdr, .includeBanner bHdr aSrc]⟩ =
      .ok (emit (.commented "#include \x22./b.h\x22")
        ⟨["/proj/b.h"], [.continuingBanner aSrc, .endFile bHdr, .verbatim "int b;",
          .beginFile bHdr, .includeBanner bHdr aSrc]⟩) := by
  constructor
  · exact c7_seen_key_identity.1 (some "/proj/b.h") "/proj/b.h" (by rfl)
  · exact c7_seen_key_identity.2 cfgBasic 5 5 aSrc aSrc "#include \x22b.h\x22"
      "#include \x22./b.h\x22" 1 2 ⟨[], []⟩
      ⟨["/proj/b.h"], [.continuingBanner aSrc, .endFile bHdr, .verbatim "int b;",
        .beginFile bHdr, .includeBanner bHdr aSrc]⟩
      (some "b.h") (some "./b.h") bHdr bHdr
      (by rfl) (by rfl) (by decide) (by rfl) (by rfl) (by rfl) rfl

/-- Claim C8 (confirmed).  With line-position markers enabled, `write_file`
emits `#line 1 "<rel>"` immediately after the `Begin file` banner, and
every first-time expansion of a resolved include found on (1-based) line
`lineno` ends by emitting `#line (lineno+1) "<rel>"` for the including
source file, immediately after the `Continuing ...` banner. -/
theorem c8_line_directive_anchors :
    (∀ (cfg : Config) (fuel : Nat) (src : SourcePath) (st st' : WState),
      cfg.line_macros = true →
      write_file cfg (fuel + 1) src st = .ok st' →
      ∃ ext, st'.out = ext ++ .lineDirective 1 src.rel :: .beginFile src :: st.out) ∧
    (∀ (cfg : Config) (fuel : Nat) (src : SourcePath) (line : String) (lineno : Nat)
       (st st' : WState) (v : Option String) (header : SourcePath),
      cfg.line_macros = true →
      matchInclude line.data = some v →
      pyLookup cfg.includes_to_paths v = some header →
      header.abs ∉ st.seen →
      write_line cfg fuel src line lineno st = .ok st' →
      ∃ st₂, write_file cfg fuel header
          (emit (.includeBanner header src) { st with seen := header.abs :: st.seen }) =
            .ok st₂ ∧
        st'.out = .lineDirective (lineno + 1) src.rel :: .continuingBanner src :: st₂.out) := by
  constructor
  · intro cfg fuel src st st' hlm h
    rw [write_file_succ] at h
    cases ha : alookup cfg.fs src.abs with
    | none =>
      simp only [ha] at h
      exact Except.noConfusion h
    | some lines =>
      simp only [ha] at h
      rw [if_pos hlm] at h
      cases hw : write_lines cfg fuel src lines 1
          (emit (.lineDirective 1 src.rel) (emit (.beginFile src) st)) with
      | error e =>
        simp only [hw] at h
        exact Except.noConfusion h
      | ok st₃ =>
        simp only [hw] at h
        injection h with h
        subst h
        obtain ⟨ext₂, hext⟩ := (write_lines_preserves cfg fuel _ _ _ _ _ hw).2.1
        refine ⟨.endFile src :: ext₂, ?_⟩
        show OutLine.endFile src :: st₃.out = _
        rw [hext]
        rfl
  · intro cfg fuel src line lineno st st' v header hlm hm hl hs h
    rw [write_line_resolved_new cfg fuel src lineno st hm hl hs] at h
    unfold expandResult at h
    cases hwf : write_file cfg fuel header
        (emit (.includeBanner header src) { st with seen := header.abs :: st.seen }) with
    | error e =>
      simp only [hwf] at h
      exact Except.noConfusion h
    | ok st₂ =>
      simp only [hwf] at h
      injection h with h
      refine ⟨st₂, rfl, ?_⟩
      rw [← h, if_pos hlm]
      rfl

theorem c8_witness :
    (∃ ext, ([.endFile aSrc, .verbatim "int a;", .lineDirective 2 "a.cpp",
        .continuingBanner aSrc, .endFile bHdr, .verbatim "int b;",
        .lineDirective 1 "b.h", .beginFile bHdr, .includeBanner bHdr aSrc,
        .lineDirective 1 "a.cpp", .beginFile aSrc] : List OutLine) =
      ext ++ .lineDirective 1 aSrc.rel :: .beginFile aSrc ::
        (⟨[], []⟩ : WState).out) ∧
    (∃ st₂, write_file cfgMarkers 4 bHdr
        (emit (.includeBanner bHdr aSrc)
          { (⟨[], []⟩ : WState) with seen := bHdr.abs :: (⟨[], []⟩ : WState).seen }) =
          .ok st₂ ∧
      ([.lineDirective 2 "a.cpp", .continuingBanner aSrc, .endFile bHdr,
        .verbatim "int b;", .lineDirective 1 "b.h", .beginFile bHdr,
        .includeBanner bHdr aSrc] : List OutLine) =
        .lineDirective (1 + 1) aSrc.rel :: .continuingBanner aSrc :: st₂.out) := by
  constructor
  · exact c8_line_directive_anchors.1 cfgMarkers 4 aSrc ⟨[], []⟩
      ⟨["/proj/b.h"], [.endFile aSrc, .verbatim "int a;", .lineDirective 2 "a.cpp",
        .continuingBanner aSrc, .endFile bHdr, .verbatim "int b;",
        .lineDirective 1 "b.h", .beginFile bHdr, .includeBanner bHdr aSrc,
        .lineDirective 1 "a.cpp", .beginFile aSrc]⟩ (by rfl) (by rfl)
  · exact c8_line_directive_anchors.2 cfgMarkers 4 aSrc "#include \x22b.h\x22" 1
      ⟨[], []⟩
      ⟨["/proj/b.h"], [.lineDirective 2 "a.cpp", .continuingBanner aSrc,
        .endFile bHdr, .verbatim "int b;", .lineDirective 1 "b.h", .beginFile bHdr,
        .includeBanner bHdr aSrc]⟩
      (some "b.h") bHdr (by rfl) (by rfl) (by rfl) (by decide) (by rfl)
